import Mathlib

/-!
Shallow embedding of `src/sweep.py` (measureme): a sweep orchestration engine
driving set-parameters through value sequences while sampling followed
instruments each step and streaming records to a dataset sink.

Modelling conventions:
* All external state (instruments, the wall clock) lives in one abstract state
  type `σ`, threaded explicitly through every operation in the exact order the
  Python statements execute.
* Python floats are modelled as `ℚ` (exact arithmetic; the comparisons in the
  code are plain orderings).
* `time.monotonic()` is a pure read of `Env.clock`; time advances only through
  effectful operations (`Env.sleep`, instrument reads/writes), matching the
  single-threaded execution model.
* `datasaver.add_result(*data)` appends the composed record (an association
  list of entity identities and values) to the run's record list.
* `KeyboardInterrupt` is embedded as an optional step index `intr`: the
  interrupt arrives during step `k` (0-based), i.e. after `k` complete steps,
  before that step's `add_result`; the loop then stops exactly as the
  `except KeyboardInterrupt` handler does.
-/

namespace Measureme

/-- Identity of an entity appearing in a record or in the schema:
either a qcodes parameter object (tracked by a numeric id) or a custom
string-named parameter (`'time'`, `'fbl_c{c}_x'`, ...). -/
inductive EntityId where
  | param (id : ℕ)
  | str (s : String)
deriving DecidableEq, Repr

/-- One composed data record: the ordered list handed to `add_result`. -/
abbrev Record : Type := List (EntityId × ℚ)

/-- The ambient world: the monotonic clock and `time.sleep`. -/
structure Env (σ : Type) where
  clock : σ → ℚ
  sleep : ℚ → σ → σ

/-- A gettable/settable qcodes parameter (capability contract of §6). -/
structure Param (σ : Type) where
  id : ℕ
  get : σ → ℚ × σ
  set : ℚ → σ → σ

/-- An SR830 lock-in amplifier handle (capability contract of §6). -/
structure SR830 (σ : Type) where
  getR : σ → ℚ × σ
  getSens : σ → ℚ × σ
  incrementSensitivity : σ → Bool × σ
  decrementSensitivity : σ → Bool × σ
  getTimeConstant : σ → ℚ × σ
  snap : σ → (ℚ × ℚ) × σ
  xId : ℕ
  yId : ℕ

/-- A channel multiplexer (FBL) handle: `get_v_in(channels)` returns
(magnitude, phase) pairs aligned positionally with the channel ids. -/
structure Fbl (σ : Type) where
  get_v_in : List ℕ → σ → List (ℚ × ℚ) × σ

/-- `_sec_to_str`: Python `int()` truncates toward zero. -/
def pyInt (q : ℚ) : ℤ :=
  if 0 ≤ q then ⌊q⌋ else -⌊-q⌋

/-- `_sec_to_str(d)` from `src/sweep.py`. -/
def _sec_to_str (d : ℚ) : String :=
  let h := pyInt (d / 3600)
  let m := pyInt (d / 60) % 60
  let s := pyInt d % 60
  toString h ++ "h " ++ toString m ++ "m " ++ toString s ++ "s"

/-- Body of `autorange_once` inside `_autorange_srs`: read R, read the
sensitivity, and request one sensitivity change if the magnitude is outside
the `[0.1*sens, 0.9*sens]` band. Returns the Python function's boolean
result together with the threaded state. -/
def autorange_once {σ : Type} (srs : SR830 σ) (s : σ) : Bool × σ :=
  let rs := srs.getR s
  let ss := srs.getSens rs.2
  if rs.1 > 9/10 * ss.1 then srs.incrementSensitivity ss.2
  else if rs.1 < 1/10 * ss.1 then srs.decrementSensitivity ss.2
  else (false, ss.2)

/-- State transformation of one full loop iteration of `_autorange_srs`:
the `autorange_once()` call followed by `time.sleep(10*srs.time_constant.get())`. -/
def autorangeIterNext {σ : Type} (env : Env σ) (srs : SR830 σ) (s : σ) : σ :=
  let s1 := (autorange_once srs s).2
  let ts := srs.getTimeConstant s1
  env.sleep (10 * ts.1) ts.2

/-- The `while autorange_once() and sets < max_changes:` loop of
`_autorange_srs`, with the counter re-expressed as
`remaining = max_changes - sets` (the counter is used only in the loop
condition, so the two forms are step-for-step equivalent).  Note the Python
`and` short-circuit: `autorange_once()` runs (and may adjust the sensitivity)
before the budget test, including on the final test that fails it. -/
def _autorange_go {σ : Type} (env : Env σ) (srs : SR830 σ) :
    ℕ → σ → σ
  | 0, s => (autorange_once srs s).2
  | r + 1, s =>
    if (autorange_once srs s).1 then
      _autorange_go env srs r (autorangeIterNext env srs s)
    else (autorange_once srs s).2

/-- `_autorange_srs(srs, max_changes)` from `src/sweep.py`; returns the final
world state. -/
def _autorange_srs {σ : Type} (env : Env σ) (srs : SR830 σ)
    (max_changes : ℕ) (s : σ) : σ :=
  _autorange_go env srs max_changes s

/-- Number of `autorange_once()` calls (condition checks) the loop of
`_autorange_srs` performs; same recursion structure as `_autorange_go`. -/
def _autorange_nChecks {σ : Type} (env : Env σ) (srs : SR830 σ) :
    ℕ → σ → ℕ
  | 0, _ => 1
  | r + 1, s =>
    if (autorange_once srs s).1 then
      1 + _autorange_nChecks env srs r (autorangeIterNext env srs s)
    else 1

/-- World state right before the `k`-th condition check of the autorange
loop (counting from 0), assuming the loop ran that far. -/
def autorangeCheckState {σ : Type} (env : Env σ) (srs : SR830 σ) (s : σ) :
    ℕ → σ
  | 0 => s
  | k + 1 => autorangeIterNext env srs (autorangeCheckState env srs s k)

/-- The registry of followed entities (`Sweep.__init__` fields). -/
structure Sweep (σ : Type) where
  _params : List (Param σ × ℚ)
  _sr830s : List (SR830 σ × ℚ × Bool)
  _fbl : Option (Fbl σ)
  _fbl_channels : List ℕ
  _fbl_gains : Option (List ℚ)

/-- `Sweep.follow_param(p, gain)`. -/
def Sweep.follow_param {σ : Type} (sw : Sweep σ) (p : Param σ)
    (gain : ℚ := 1) : Sweep σ :=
  { sw with _params := sw._params ++ [(p, gain)] }

/-- `Sweep.follow_sr830(l, gain, autorange)`. -/
def Sweep.follow_sr830 {σ : Type} (sw : Sweep σ) (l : SR830 σ)
    (gain : ℚ := 1) (autorange : Bool := true) : Sweep σ :=
  { sw with _sr830s := sw._sr830s ++ [(l, gain, autorange)] }

/-- `Sweep.follow_fbl(fbl, channels, gains)`. -/
def Sweep.follow_fbl {σ : Type} (sw : Sweep σ) (fbl : Fbl σ)
    (channels : List ℕ) (gains : Option (List ℚ) := none) : Sweep σ :=
  { sw with _fbl := some fbl, _fbl_channels := channels, _fbl_gains := gains }

/-- Record key `f'fbl_c{c}_r'` used when composing records. -/
def fblRName (c : ℕ) : String := "fbl_c" ++ toString c ++ "_r"

/-- Record/schema key `f'fbl_c{c}_p'`. -/
def fblPName (c : ℕ) : String := "fbl_c" ++ toString c ++ "_p"

/-- Schema key `f'fbl_c{c}_x'` used by `_create_measurement`. -/
def fblXName (c : ℕ) : String := "fbl_c" ++ toString c ++ "_x"

/-- The gain application of the channel-set loop:
`if self._fbl_gains is not None: r = r / self._fbl_gains[i]`.
(Out-of-range gain indexing raises in Python — a caller contract violation;
the model returns the magnitude with a neutral gain there, which no claim
exercises.) -/
def applyFblGain (gains : Option (List ℚ)) (i : ℕ) (r : ℚ) : ℚ :=
  match gains with
  | none => r
  | some gs => r / gs.getD i 1

/-- The `for i, (c, (r, theta)) in enumerate(zip(channels, d))` loop that
extends the record with `(f'fbl_c{c}_r', r)` and `(f'fbl_c{c}_p', theta)`;
the explicit index argument mirrors `enumerate`. -/
def fblEntries (gains : Option (List ℚ)) : ℕ → List (ℕ × (ℚ × ℚ)) →
    List (EntityId × ℚ)
  | _, [] => []
  | i, (c, (r, theta)) :: rest =>
    (EntityId.str (fblRName c), applyFblGain gains i r) ::
      (EntityId.str (fblPName c), theta) :: fblEntries gains (i + 1) rest

/-- The channel-set sampling block: `d = self._fbl.get_v_in(self._fbl_channels)`
followed by the enumerate-zip loop over `(channels, d)`. -/
def fblRead {σ : Type} (fbl : Fbl σ) (channels : List ℕ)
    (gains : Option (List ℚ)) (s : σ) : List (EntityId × ℚ) × σ :=
  let ds := fbl.get_v_in channels s
  (fblEntries gains 0 (channels.zip ds.1), ds.2)

/-- The `for i, (p, gain) in enumerate(self._params)` sampling loop:
`v = p.get(); v = v / gain; data.append((p, v))`. -/
def paramsRead {σ : Type} : List (Param σ × ℚ) → σ →
    List (EntityId × ℚ) × σ
  | [], s => ([], s)
  | (p, gain) :: rest, s =>
    let vs := p.get s
    let v := vs.1 / gain
    let tailRes := paramsRead rest vs.2
    ((EntityId.param p.id, v) :: tailRes.1, tailRes.2)

/-- The `for i, (l, gain, autorange) in enumerate(self._sr830s)` sampling
loop: optional `_autorange_srs(l, 3)`, then `x, y = l.snap('x','y')`,
`x, y = x/gain, y/gain`, `data.extend([(l.X, x), (l.Y, y)])`. -/
def sr830sRead {σ : Type} (env : Env σ) : List (SR830 σ × ℚ × Bool) → σ →
    List (EntityId × ℚ) × σ
  | [], s => ([], s)
  | (l, gain, autorange) :: rest, s =>
    let s1 := if autorange then _autorange_srs env l 3 s else s
    let xys := l.snap s1
    let tailRes := sr830sRead env rest xys.2
    ((EntityId.param l.xId, xys.1.1 / gain) ::
      (EntityId.param l.yId, xys.1.2 / gain) :: tailRes.1, tailRes.2)

/-- The optional channel-set block shared by `sweep` and `watch`
(`if self._fbl is not None: ...`). -/
def fblBlock {σ : Type} (sw : Sweep σ) (s : σ) : List (EntityId × ℚ) × σ :=
  match sw._fbl with
  | none => ([], s)
  | some fbl => fblRead fbl sw._fbl_channels sw._fbl_gains s

/-- `if inter_delay is not None: time.sleep(inter_delay)`. -/
def delayBlock {σ : Type} (env : Env σ) (inter_delay : Option ℚ) (s : σ) : σ :=
  match inter_delay with
  | none => s
  | some d => env.sleep d s

/-- Identities registered by `Sweep._create_measurement(*set_params)`, in
registration order: the set parameters, the custom `'time'` parameter, the
followed plain parameters, the followed lock-ins' X and Y parameters, and for
every channel of the channel set the custom `fbl_c{c}_x` and `fbl_c{c}_p`
parameters. -/
def Sweep._create_measurement {σ : Type} (sw : Sweep σ)
    (set_params : List (Param σ)) : List EntityId :=
  set_params.map (fun p => EntityId.param p.id)
    ++ [EntityId.str "time"]
    ++ sw._params.map (fun pg => EntityId.param pg.1.id)
    ++ sw._sr830s.flatMap
        (fun lt => [EntityId.param lt.1.xId, EntityId.param lt.1.yId])
    ++ sw._fbl_channels.flatMap
        (fun c => [EntityId.str (fblXName c), EntityId.str (fblPName c)])

/-- Result of one run of `sweep` / `watch` / `megasweep`. -/
structure RunResult (σ : Type) where
  records : List Record
  interrupted : Bool
  report : String
  final : σ

/-- The `for setpoint in vals:` loop of `Sweep.sweep`.  `intr = some k`
embeds a `KeyboardInterrupt` arriving during step `k` (after `k` complete
steps, before that step's `add_result`); every statement of the step body
precedes `add_result`, so the abandoned step contributes no record. -/
def sweepLoop {σ : Type} (env : Env σ) (sw : Sweep σ) (set_param : Param σ)
    (inter_delay : Option ℚ) (t0 : ℚ) :
    Option ℕ → List ℚ → σ → List Record × Bool × σ
  | _, [], s => ([], false, s)
  | intr, v :: vs, s =>
    if intr = some 0 then ([], true, s)
    else
      let t := env.clock s - t0
      let s1 := set_param.set v s
      let s2 := delayBlock env inter_delay s1
      let fblRes := fblBlock sw s2
      let parRes := paramsRead sw._params fblRes.2
      let srsRes := sr830sRead env sw._sr830s parRes.2
      let data : Record :=
        (EntityId.param set_param.id, v) :: (EntityId.str "time", t) ::
          (fblRes.1 ++ parRes.1 ++ srsRes.1)
      let rest := sweepLoop env sw set_param inter_delay t0
        (intr.map (fun n => n - 1)) vs srsRes.2
      (data :: rest.1, rest.2.1, rest.2.2)

/-- `Sweep.sweep(set_param, vals, inter_delay)` from `src/sweep.py`.
The "Minimum duration" print is dropped (pure presentation); the closing
`print(f'Completed in: ...')` is modelled as the `report` field. -/
def Sweep.sweep {σ : Type} (env : Env σ) (sw : Sweep σ) (set_param : Param σ)
    (vals : List ℚ) (inter_delay : Option ℚ) (intr : Option ℕ) (s : σ) :
    RunResult σ :=
  let t0 := env.clock s
  let res := sweepLoop env sw set_param inter_delay t0 intr vals s
  { records := res.1
    interrupted := res.2.1
    report := "Completed in: " ++ _sec_to_str (env.clock res.2.2 - t0)
    final := res.2.2 }

/-- State transformation and record tail of one `watch` loop body after the
elapsed-time computation: optional delay, then plain parameters, then
lock-ins, then the channel set (note: the channel-set block comes *last* in
`watch`, unlike `sweep`). -/
def watchStep {σ : Type} (env : Env σ) (sw : Sweep σ)
    (inter_delay : Option ℚ) (s : σ) : List (EntityId × ℚ) × σ :=
  let s1 := delayBlock env inter_delay s
  let parRes := paramsRead sw._params s1
  let srsRes := sr830sRead env sw._sr830s parRes.2
  let fblRes := fblBlock sw srsRes.2
  (parRes.1 ++ srsRes.1 ++ fblRes.1, fblRes.2)

/-- The loop guard `max_duration is None or t < max_duration` of `watch`. -/
def watchCond (max_duration : Option ℚ) (t : ℚ) : Bool :=
  match max_duration with
  | none => true
  | some d => decide (t < d)

/-- The `while max_duration is None or t < max_duration:` loop of
`Sweep.watch`.  The guard argument `t` is the elapsed time computed at the
top of the *previous* body (or just before the loop), exactly as in the
source, where `t` is reassigned as the first statement of the body.  `fuel`
bounds the number of guard evaluations the model will unfold; `none` means
the fuel ran out before the loop finished (a model artifact, not a program
outcome). -/
def watchLoop {σ : Type} (env : Env σ) (sw : Sweep σ)
    (max_duration : Option ℚ) (inter_delay : Option ℚ) (t0 : ℚ) :
    ℕ → Option ℕ → ℚ → σ → Option (List Record × Bool × σ)
  | 0, _, _, _ => none
  | fuel + 1, intr, t, s =>
    if watchCond max_duration t then
      if intr = some 0 then some ([], true, s)
      else
        match watchLoop env sw max_duration inter_delay t0 fuel
            (intr.map (fun n => n - 1)) (env.clock s - t0)
            (watchStep env sw inter_delay s).2 with
        | none => none
        | some rest =>
          some
            (((EntityId.str "time", env.clock s - t0) ::
                (watchStep env sw inter_delay s).1) :: rest.1,
             rest.2.1, rest.2.2)
    else some ([], false, s)

/-- `Sweep.watch(max_duration, inter_delay)` from `src/sweep.py`.  `t0` and
the initial guard value `t = time.monotonic() - t0` are both read before the
loop; with the pure-clock model the initial guard value is `0`. -/
def Sweep.watch {σ : Type} (env : Env σ) (sw : Sweep σ)
    (max_duration : Option ℚ) (inter_delay : Option ℚ) (fuel : ℕ)
    (intr : Option ℕ) (s : σ) : Option (RunResult σ) :=
  let t0 := env.clock s
  let t := env.clock s - t0
  match watchLoop env sw max_duration inter_delay t0 fuel intr t s with
  | none => none
  | some res => some
    { records := res.1
      interrupted := res.2.1
      report := "Completed in: " ++ _sec_to_str (env.clock res.2.2 - t0)
      final := res.2.2 }

/-- The inner `for sp_fast in v_fast:` loop of `Sweep.megasweep`: apply the
fast setpoint, delay, sample plain parameters and lock-ins (megasweep never
samples the channel set), and record `(slow, fast, time, ...)`.  Returns the
records, the interrupt countdown as left after these steps, the interrupted
flag, and the final state. -/
def megaInner {σ : Type} (env : Env σ) (sw : Sweep σ) (s_fast s_slow : Param σ)
    (sp_slow : ℚ) (inter_delay : Option ℚ) (t0 : ℚ) :
    Option ℕ → List ℚ → σ → List Record × Option ℕ × Bool × σ
  | intr, [], s => ([], intr, false, s)
  | intr, v :: vs, s =>
    if intr = some 0 then ([], intr, true, s)
    else
      let t := env.clock s - t0
      let s1 := s_fast.set v s
      let s2 := delayBlock env inter_delay s1
      let parRes := paramsRead sw._params s2
      let srsRes := sr830sRead env sw._sr830s parRes.2
      let data : Record :=
        (EntityId.param s_slow.id, sp_slow) :: (EntityId.param s_fast.id, v) ::
          (EntityId.str "time", t) :: (parRes.1 ++ srsRes.1)
      let rest := megaInner env sw s_fast s_slow sp_slow inter_delay t0
        (intr.map (fun n => n - 1)) vs srsRes.2
      (data :: rest.1, rest.2.1, rest.2.2.1, rest.2.2.2)

/-- The outer `for sp_slow in v_slow:` loop of `Sweep.megasweep`: set the
slow parameter once, then run the inner loop; no delay and no sampling at
the outer step. -/
def megaOuter {σ : Type} (env : Env σ) (sw : Sweep σ) (s_fast s_slow : Param σ)
    (v_fast : List ℚ) (inter_delay : Option ℚ) (t0 : ℚ) :
    Option ℕ → List ℚ → σ → List Record × Bool × σ
  | _, [], s => ([], false, s)
  | intr, sp :: sps, s =>
    let s1 := s_slow.set sp s
    let innerRes := megaInner env sw s_fast s_slow sp inter_delay t0
      intr v_fast s1
    if innerRes.2.2.1 then (innerRes.1, true, innerRes.2.2.2)
    else
      let rest := megaOuter env sw s_fast s_slow v_fast inter_delay t0
        innerRes.2.1 sps innerRes.2.2.2
      (innerRes.1 ++ rest.1, rest.2.1, rest.2.2)

/-- `Sweep.megasweep(s_fast, v_fast, s_slow, v_slow, inter_delay)` from
`src/sweep.py`; `t0` is read before the measurement is created. -/
def Sweep.megasweep {σ : Type} (env : Env σ) (sw : Sweep σ)
    (s_fast : Param σ) (v_fast : List ℚ) (s_slow : Param σ) (v_slow : List ℚ)
    (inter_delay : Option ℚ) (intr : Option ℕ) (s : σ) : RunResult σ :=
  let t0 := env.clock s
  let res := megaOuter env sw s_fast s_slow v_fast inter_delay t0 intr v_slow s
  { records := res.1
    interrupted := res.2.1
    report := "Completed in: " ++ _sec_to_str (env.clock res.2.2 - t0)
    final := res.2.2 }

/-! ## Concrete instantiations used in witnesses and counterexamples -/

/-- Trivial world over `Unit`: constant clock, inert sleep. -/
def envU : Env Unit := ⟨fun _ => 0, fun _ s => s⟩

/-- A settable parameter over the trivial world. -/
def paramU (n : ℕ) : Param Unit := ⟨n, fun s => (0, s), fun _ s => s⟩

/-- A parameter over the trivial world whose reading is the constant `r`. -/
def constParam (n : ℕ) (r : ℚ) : Param Unit := ⟨n, fun s => (r, s), fun _ s => s⟩

/-- An empty followed-entity registry over the trivial world. -/
def swU : Sweep Unit := ⟨[], [], none, [], none⟩

/-- A channel multiplexer over the trivial world returning `(1, 0)` for every
requested channel. -/
def fblU : Fbl Unit := ⟨fun chs s => (chs.map (fun _ => ((1 : ℚ), (0 : ℚ))), s)⟩

/-- World whose state *is* the clock (`clock = id`, `sleep` advances it). -/
def envQ : Env ℚ := ⟨fun s => s, fun d s => s + d⟩

/-- An empty followed-entity registry over the clock world. -/
def swQ : Sweep ℚ := ⟨[], [], none, [], none⟩

/-! ## Basic record-shape lemmas -/

/-- The entity-identity sequence of a record. -/
def recordIds (r : Record) : List EntityId := r.map Prod.fst

theorem sweepLoop_none_length {σ : Type} (env : Env σ) (sw : Sweep σ)
    (sp : Param σ) (d : Option ℚ) (t0 : ℚ) (vs : List ℚ) (s : σ) :
    (sweepLoop env sw sp d t0 none vs s).1.length = vs.length := by
  induction vs generalizing s with
  | nil => rfl
  | cons v vs ih => simp [sweepLoop, ih]

theorem sweepLoop_none_map_head {σ : Type} (env : Env σ) (sw : Sweep σ)
    (sp : Param σ) (d : Option ℚ) (t0 : ℚ) (vs : List ℚ) (s : σ) :
    (sweepLoop env sw sp d t0 none vs s).1.map List.head? =
      vs.map (fun v => some (EntityId.param sp.id, v)) := by
  induction vs generalizing s with
  | nil => rfl
  | cons v vs ih => simp [sweepLoop, ih]

/-- C2 — For every non-empty value sequence `vals` and settable `set_param`,
an uninterrupted `sweep(set_param, vals, inter_delay)` emits exactly
`len(vals)` records, and the i-th record's setpoint entry (the first entry of
the composed record) equals `vals[i]`, in the original order of `vals`. -/
theorem claim_C2 {σ : Type} (env : Env σ) (sw : Sweep σ) (set_param : Param σ)
    (vals : List ℚ) (inter_delay : Option ℚ) (s : σ) (hne : vals ≠ []) :
    (Sweep.sweep env sw set_param vals inter_delay none s).records.length
        = vals.length ∧
    (Sweep.sweep env sw set_param vals inter_delay none s).records.map
        List.head? =
      vals.map (fun v => some (EntityId.param set_param.id, v)) := by
  refine ⟨?_, ?_⟩
  · exact sweepLoop_none_length ..
  · exact sweepLoop_none_map_head ..

/-- Witness for C2 at a concrete input. -/
theorem claim_C2_witness :
    ([(0 : ℚ), 1, 2] ≠ []) ∧
    ((Sweep.sweep envU swU (paramU 5) [0, 1, 2] none none ()).records.length
        = ([(0 : ℚ), 1, 2]).length ∧
     (Sweep.sweep envU swU (paramU 5) [0, 1, 2] none none ()).records.map
        List.head? =
       ([(0 : ℚ), 1, 2]).map (fun v => some (EntityId.param (paramU 5).id, v))) :=
  ⟨by decide, claim_C2 envU swU (paramU 5) [0, 1, 2] none () (by decide)⟩

/-! ## Autorange: instrumentation and claims C4, C5 -/

/-- Wraps a lock-in so that the state also counts the number of
`increment_sensitivity` calls (the "increase-attempts"); every other
operation behaves exactly as in the wrapped instrument. -/
def countingSRS {σ : Type} (srs : SR830 σ) : SR830 (σ × ℕ) where
  getR := fun sn => ((srs.getR sn.1).1, ((srs.getR sn.1).2, sn.2))
  getSens := fun sn => ((srs.getSens sn.1).1, ((srs.getSens sn.1).2, sn.2))
  incrementSensitivity := fun sn =>
    ((srs.incrementSensitivity sn.1).1,
     ((srs.incrementSensitivity sn.1).2, sn.2 + 1))
  decrementSensitivity := fun sn =>
    ((srs.decrementSensitivity sn.1).1,
     ((srs.decrementSensitivity sn.1).2, sn.2))
  getTimeConstant := fun sn =>
    ((srs.getTimeConstant sn.1).1, ((srs.getTimeConstant sn.1).2, sn.2))
  snap := fun sn => ((srs.snap sn.1).1, ((srs.snap sn.1).2, sn.2))
  xId := srs.xId
  yId := srs.yId

/-- Lifts the world to the counter-carrying state. -/
def liftEnv {σ : Type} (env : Env σ) : Env (σ × ℕ) where
  clock := fun sn => env.clock sn.1
  sleep := fun d sn => (env.sleep d sn.1, sn.2)

/-- A lock-in over the trivial world whose magnitude (1) always exceeds 0.9
times its sensitivity (1) and which always accepts sensitivity increases. -/
def srsAbove : SR830 Unit where
  getR := fun s => (1, s)
  getSens := fun s => (1, s)
  incrementSensitivity := fun s => (true, s)
  decrementSensitivity := fun s => (false, s)
  getTimeConstant := fun s => (0, s)
  snap := fun s => ((0, 0), s)
  xId := 0
  yId := 1

theorem autorange_once_counting_above {σ : Type} (srs : SR830 σ)
    (hAbove : ∀ s : σ, 9/10 * (srs.getSens (srs.getR s).2).1 < (srs.getR s).1)
    (s : σ) (n : ℕ) :
    autorange_once (countingSRS srs) (s, n) =
      ((srs.incrementSensitivity (srs.getSens (srs.getR s).2).2).1,
       ((srs.incrementSensitivity (srs.getSens (srs.getR s).2).2).2, n + 1)) := by
  simp only [autorange_once, countingSRS]
  rw [if_pos (hAbove s)]

theorem autorange_go_count_above {σ : Type} (env : Env σ) (srs : SR830 σ)
    (hAbove : ∀ s : σ, 9/10 * (srs.getSens (srs.getR s).2).1 < (srs.getR s).1)
    (hInc : ∀ s : σ, (srs.incrementSensitivity s).1 = true)
    (r : ℕ) (s : σ) (n : ℕ) :
    (_autorange_go (liftEnv env) (countingSRS srs) r (s, n)).2 = n + r + 1 := by
  induction r generalizing s n with
  | zero =>
    simp [_autorange_go, autorange_once_counting_above srs hAbove]
  | succ r ih =>
    have honce := autorange_once_counting_above srs hAbove s n
    simp only [_autorange_go, honce, hInc]
    rw [if_pos trivial]
    have hnext :
        autorangeIterNext (liftEnv env) (countingSRS srs) (s, n) =
          (env.sleep
            (10 * (srs.getTimeConstant
              (srs.incrementSensitivity (srs.getSens (srs.getR s).2).2).2).1)
            (srs.getTimeConstant
              (srs.incrementSensitivity (srs.getSens (srs.getR s).2).2).2).2,
           n + 1) := by
      simp only [autorangeIterNext, honce]
      simp [countingSRS, liftEnv]
    rw [hnext, ih]
    omega

/-- C4 (amended) — For every lock-in whose measured magnitude stays above
0.9 times its current sensitivity on every check and whose
sensitivity-increase requests all succeed, `_autorange_srs` with bound
`max_changes` performs exactly `max_changes + 1` increase-attempts and then
stops: the Python `and` evaluates `autorange_once()` (one more attempt)
before the budget test that fails, so the attempt count overshoots the bound
by one. -/
theorem claim_C4 {σ : Type} (env : Env σ) (srs : SR830 σ)
    (hAbove : ∀ s : σ, 9/10 * (srs.getSens (srs.getR s).2).1 < (srs.getR s).1)
    (hInc : ∀ s : σ, (srs.incrementSensitivity s).1 = true)
    (M : ℕ) (s : σ) :
    (_autorange_srs (liftEnv env) (countingSRS srs) M (s, 0)).2 = M + 1 := by
  have h := autorange_go_count_above env srs hAbove hInc M s 0
  simpa [_autorange_srs] using h

/-- Witness for C4 (amended) at a concrete instrument and bound 3. -/
theorem claim_C4_witness :
    (∀ s : Unit,
      9/10 * (srsAbove.getSens (srsAbove.getR s).2).1 < (srsAbove.getR s).1) ∧
    (∀ s : Unit, (srsAbove.incrementSensitivity s).1 = true) ∧
    (_autorange_srs (liftEnv envU) (countingSRS srsAbove) 3 ((), 0)).2 = 3 + 1 :=
  ⟨fun _ => by norm_num [srsAbove], fun _ => rfl,
   claim_C4 envU srsAbove (fun _ => by norm_num [srsAbove]) (fun _ => rfl) 3 ()⟩

/-- C4, as stated, is false at a concrete input: with `max_changes = 1` and a
magnitude permanently above 0.9 × sensitivity, the loop performs 2 increase
attempts, not 1. -/
theorem claim_C4_counterexample :
    (_autorange_srs (liftEnv envU) (countingSRS srsAbove) 1 ((), 0)).2 = 2 ∧
    ¬ ((_autorange_srs (liftEnv envU) (countingSRS srsAbove) 1 ((), 0)).2 = 1) := by
  have h2 : (_autorange_srs (liftEnv envU) (countingSRS srsAbove) 1 ((), 0)).2 = 2 := by
    norm_num [_autorange_srs, _autorange_go, autorange_once, autorangeIterNext,
      countingSRS, srsAbove, liftEnv, envU]
  exact ⟨h2, by omega⟩

/-- The event on which one `autorange_once()` check returns `False`, i.e. on
which the autorange loop stops before its budget is exhausted: the magnitude
lies in the band `[0.1*sens, 0.9*sens]`, or the branch taken requested an
adjustment and the device rejected it (`increment_sensitivity` /
`decrement_sensitivity` returned false). -/
def srsStopEvent {σ : Type} (srs : SR830 σ) (s : σ) : Prop :=
  (1/10 * (srs.getSens (srs.getR s).2).1 ≤ (srs.getR s).1 ∧
    (srs.getR s).1 ≤ 9/10 * (srs.getSens (srs.getR s).2).1) ∨
  (9/10 * (srs.getSens (srs.getR s).2).1 < (srs.getR s).1 ∧
    (srs.incrementSensitivity (srs.getSens (srs.getR s).2).2).1 = false) ∨
  ((srs.getR s).1 ≤ 9/10 * (srs.getSens (srs.getR s).2).1 ∧
    (srs.getR s).1 < 1/10 * (srs.getSens (srs.getR s).2).1 ∧
    (srs.decrementSensitivity (srs.getSens (srs.getR s).2).2).1 = false)

theorem autorange_once_false_iff {σ : Type} (srs : SR830 σ) (s : σ) :
    (autorange_once srs s).1 = false ↔ srsStopEvent srs s := by
  unfold autorange_once srsStopEvent
  dsimp only
  split_ifs with h1 h2
  · constructor
    · intro hf
      exact Or.inr (Or.inl ⟨h1, hf⟩)
    · rintro (⟨_, hle⟩ | ⟨_, hf⟩ | ⟨hle, _, _⟩)
      · exact absurd h1 (not_lt.mpr hle)
      · exact hf
      · exact absurd h1 (not_lt.mpr hle)
  · constructor
    · intro hf
      exact Or.inr (Or.inr ⟨not_lt.mp h1, h2, hf⟩)
    · rintro (⟨hge, _⟩ | ⟨hgt, _⟩ | ⟨_, _, hf⟩)
      · exact absurd h2 (not_lt.mpr hge)
      · exact absurd hgt h1
      · exact hf
  · simp only [true_iff]
    exact Or.inl ⟨not_lt.mp h2, not_lt.mp h1⟩

theorem autorangeCheckState_shift {σ : Type} (env : Env σ) (srs : SR830 σ)
    (s : σ) (k : ℕ) :
    autorangeCheckState env srs s (k + 1) =
      autorangeCheckState env srs (autorangeIterNext env srs s) k := by
  induction k with
  | zero => rfl
  | succ k ih =>
    show autorangeIterNext env srs (autorangeCheckState env srs s (k + 1)) = _
    rw [ih]
    rfl

/-- C5 — For every lock-in model and every budget, the autorange loop
terminates (the model is a total function performing
`_autorange_nChecks ≤ max_changes + 1` condition checks), and it stops
exactly at the first check on which a stop event occurs (magnitude inside
the `[0.1*S, 0.9*S]` band, or the requested adjustment rejected), or — if no
stop event occurs in the first `max_changes + 1` checks — because the
adjustment budget is exhausted, whichever comes first: every check before
the last sees no stop event, and the last check either sees a stop event or
is the budget-exhausted check. -/
theorem claim_C5 {σ : Type} (env : Env σ) (srs : SR830 σ) (M : ℕ) (s : σ) :
    1 ≤ _autorange_nChecks env srs M s ∧
    _autorange_nChecks env srs M s ≤ M + 1 ∧
    (∀ k, k + 1 < _autorange_nChecks env srs M s →
      ¬ srsStopEvent srs (autorangeCheckState env srs s k)) ∧
    (srsStopEvent srs
        (autorangeCheckState env srs s (_autorange_nChecks env srs M s - 1)) ∨
      _autorange_nChecks env srs M s = M + 1) := by
  induction M generalizing s with
  | zero =>
    refine ⟨le_refl 1, le_refl 1, fun k hk => absurd hk (by simp [_autorange_nChecks]), ?_⟩
    right
    rfl
  | succ M ih =>
    by_cases h : (autorange_once srs s).1 = true
    · have hn : _autorange_nChecks env srs (M + 1) s =
          1 + _autorange_nChecks env srs M (autorangeIterNext env srs s) := by
        simp [_autorange_nChecks, h]
      obtain ⟨ih1, ih2, ih3, ih4⟩ := ih (autorangeIterNext env srs s)
      refine ⟨by omega, by omega, ?_, ?_⟩
      · intro k hk
        match k with
        | 0 =>
          intro hstop
          rw [← autorange_once_false_iff] at hstop
          simp [autorangeCheckState] at hstop
          rw [hstop] at h
          exact Bool.false_ne_true h
        | j + 1 =>
          rw [autorangeCheckState_shift]
          exact ih3 j (by omega)
      · rw [hn]
        rcases ih4 with hstop | hbudget
        · left
          have hshift := autorangeCheckState_shift env srs s
            (_autorange_nChecks env srs M (autorangeIterNext env srs s) - 1)
          have : 1 + _autorange_nChecks env srs M (autorangeIterNext env srs s) - 1 =
              (_autorange_nChecks env srs M (autorangeIterNext env srs s) - 1) + 1 := by
            omega
          rw [this, hshift]
          exact hstop
        · right
          omega
    · have hfalse : (autorange_once srs s).1 = false := by
        simpa using h
      have hn : _autorange_nChecks env srs (M + 1) s = 1 := by
        simp [_autorange_nChecks, hfalse]
      refine ⟨by omega, by omega, fun k hk => absurd hk (by omega), ?_⟩
      left
      rw [hn]
      exact (autorange_once_false_iff srs s).mp hfalse

/-! ## Gain semantics: claims C6, C7 -/

theorem paramsRead_getElem? {σ : Type} (ps : List (Param σ × ℚ)) (s : σ)
    (i : ℕ) (p : Param σ) (g : ℚ) (h : ps[i]? = some (p, g)) :
    ∃ s', (paramsRead ps s).1[i]? =
      some (EntityId.param p.id, (p.get s').1 / g) := by
  induction ps generalizing i s with
  | nil => simp at h
  | cons pg rest ih =>
    match i with
    | 0 =>
      simp only [List.getElem?_cons_zero, Option.some.injEq] at h
      refine ⟨s, ?_⟩
      obtain ⟨q, gq⟩ := pg
      cases h
      simp [paramsRead]
    | i + 1 =>
      simp only [List.getElem?_cons_succ] at h
      obtain ⟨q, gq⟩ := pg
      obtain ⟨s', hs'⟩ := ih (q.get s).2 i h
      exact ⟨s', by simpa [paramsRead] using hs'⟩

theorem sr830sRead_getElem? {σ : Type} (env : Env σ)
    (ls : List (SR830 σ × ℚ × Bool)) (s : σ) (i : ℕ)
    (l : SR830 σ) (g : ℚ) (a : Bool) (h : ls[i]? = some (l, g, a)) :
    ∃ s',
      (sr830sRead env ls s).1[2 * i]? =
        some (EntityId.param l.xId, (l.snap s').1.1 / g) ∧
      (sr830sRead env ls s).1[2 * i + 1]? =
        some (EntityId.param l.yId, (l.snap s').1.2 / g) := by
  induction ls generalizing i s with
  | nil => simp at h
  | cons lt rest ih =>
    match i with
    | 0 =>
      simp only [List.getElem?_cons_zero, Option.some.injEq] at h
      obtain ⟨l0, g0, a0⟩ := lt
      cases h
      exact ⟨if a then _autorange_srs env l 3 s else s, by simp [sr830sRead]⟩
    | i + 1 =>
      simp only [List.getElem?_cons_succ] at h
      obtain ⟨l0, g0, a0⟩ := lt
      obtain ⟨s', hx, hy⟩ := ih
        (l0.snap (if a0 then _autorange_srs env l0 3 s else s)).2 i h
      refine ⟨s', ?_, ?_⟩
      · have h2 : 2 * (i + 1) = (2 * i + 1) + 1 := by omega
        rw [h2]
        simpa [sr830sRead] using hx
      · have h2 : 2 * (i + 1) + 1 = (2 * i + 1 + 1) + 1 := by omega
        rw [h2]
        simpa [sr830sRead] using hy

/-- C6 — A followed plain parameter's recorded value equals the raw reading
divided by its gain; a followed lock-in's recorded X and Y both equal the
jointly snapped raw pair divided by its gain; and for the same raw reading,
changing the gain from 1.0 to 2.0 halves the recorded value. -/
theorem claim_C6 :
    (∀ (σ : Type) (ps : List (Param σ × ℚ)) (s : σ) (i : ℕ) (p : Param σ)
        (g : ℚ), ps[i]? = some (p, g) → g ≠ 0 →
      ∃ s', (paramsRead ps s).1[i]? =
        some (EntityId.param p.id, (p.get s').1 / g)) ∧
    (∀ (σ : Type) (env : Env σ) (ls : List (SR830 σ × ℚ × Bool)) (s : σ)
        (i : ℕ) (l : SR830 σ) (g : ℚ) (a : Bool),
      ls[i]? = some (l, g, a) → g ≠ 0 →
      ∃ s',
        (sr830sRead env ls s).1[2 * i]? =
          some (EntityId.param l.xId, (l.snap s').1.1 / g) ∧
        (sr830sRead env ls s).1[2 * i + 1]? =
          some (EntityId.param l.yId, (l.snap s').1.2 / g)) ∧
    (∀ r : ℚ, ∃ v1 v2,
      (paramsRead [(constParam 0 r, 1)] ()).1 = [(EntityId.param 0, v1)] ∧
      (paramsRead [(constParam 0 r, 2)] ()).1 = [(EntityId.param 0, v2)] ∧
      v2 = v1 / 2) := by
  refine ⟨?_, ?_, ?_⟩
  · intro σ ps s i p g h _
    exact paramsRead_getElem? ps s i p g h
  · intro σ env ls s i l g a h _
    exact sr830sRead_getElem? env ls s i l g a h
  · intro r
    refine ⟨r / 1, r / 2, rfl, rfl, ?_⟩
    rw [div_one]

/-- Witness for C6 at a concrete followed parameter with gain 2. -/
theorem claim_C6_witness :
    ([((constParam 3 5 : Param Unit), (2 : ℚ))][0]? =
      some (constParam 3 5, 2)) ∧
    ((2 : ℚ) ≠ 0) ∧
    (∃ s', (paramsRead [(constParam 3 5, 2)] ()).1[0]? =
      some (EntityId.param (constParam 3 5).id, ((constParam 3 5).get s').1 / 2)) :=
  ⟨rfl, by norm_num,
   claim_C6.1 Unit [(constParam 3 5, 2)] () 0 (constParam 3 5) 2 rfl (by norm_num)⟩

theorem fblEntries_getElem? (gains : Option (List ℚ)) (j : ℕ)
    (pairs : List (ℕ × (ℚ × ℚ))) (i : ℕ) (c : ℕ) (rt : ℚ × ℚ)
    (h : pairs[i]? = some (c, rt)) :
    (fblEntries gains j pairs)[2 * i]? =
      some (EntityId.str (fblRName c), applyFblGain gains (j + i) rt.1) ∧
    (fblEntries gains j pairs)[2 * i + 1]? =
      some (EntityId.str (fblPName c), rt.2) := by
  induction pairs generalizing i j with
  | nil => simp at h
  | cons pr rest ih =>
    match i with
    | 0 =>
      simp only [List.getElem?_cons_zero, Option.some.injEq] at h
      obtain ⟨c0, r0, t0⟩ := pr
      cases h
      simp [fblEntries]
    | i + 1 =>
      simp only [List.getElem?_cons_succ] at h
      obtain ⟨c0, r0, t0⟩ := pr
      obtain ⟨hx, hy⟩ := ih (j + 1) i h
      have hidx : j + 1 + i = j + (i + 1) := by omega
      rw [hidx] at hx
      constructor
      · have h2 : 2 * (i + 1) = (2 * i + 1) + 1 := by omega
        rw [h2]
        simpa [fblEntries] using hx
      · have h2 : 2 * (i + 1) + 1 = (2 * i + 1 + 1) + 1 := by omega
        rw [h2]
        simpa [fblEntries] using hy

theorem getD_of_getElem? {α : Type} (l : List α) (i : ℕ) (x d : α)
    (h : l[i]? = some x) : l.getD i d = x := by
  simp [List.getD, h]

/-- C7 — When a channel set is followed with per-channel gains, the recorded
magnitude of channel `i` equals the raw magnitude divided by that channel's
gain while the recorded phase is the raw phase unchanged; with no gains
configured, both magnitude and phase are recorded raw.  (This is the shared
channel-set block `fblRead` used by both `sweep` and `watch`.) -/
theorem claim_C7 :
    (∀ (σ : Type) (fbl : Fbl σ) (chs : List ℕ) (gs : List ℚ) (s : σ) (i c : ℕ)
        (rt : ℚ × ℚ) (gv : ℚ),
      chs[i]? = some c →
      ((fbl.get_v_in chs s).1)[i]? = some rt →
      gs[i]? = some gv →
      (fblRead fbl chs (some gs) s).1[2 * i]? =
        some (EntityId.str (fblRName c), rt.1 / gv) ∧
      (fblRead fbl chs (some gs) s).1[2 * i + 1]? =
        some (EntityId.str (fblPName c), rt.2)) ∧
    (∀ (σ : Type) (fbl : Fbl σ) (chs : List ℕ) (s : σ) (i c : ℕ)
        (rt : ℚ × ℚ),
      chs[i]? = some c →
      ((fbl.get_v_in chs s).1)[i]? = some rt →
      (fblRead fbl chs none s).1[2 * i]? =
        some (EntityId.str (fblRName c), rt.1) ∧
      (fblRead fbl chs none s).1[2 * i + 1]? =
        some (EntityId.str (fblPName c), rt.2)) := by
  constructor
  · intro σ fbl chs gs s i c rt gv hc hd hg
    have hzip : (chs.zip (fbl.get_v_in chs s).1)[i]? = some (c, rt) := by
      rw [List.getElem?_zip_eq_some]
      exact ⟨hc, hd⟩
    have h := fblEntries_getElem? (some gs) 0 (chs.zip (fbl.get_v_in chs s).1)
      i c rt hzip
    have hgain : applyFblGain (some gs) (0 + i) rt.1 = rt.1 / gv := by
      simp only [applyFblGain, Nat.zero_add]
      rw [getD_of_getElem? gs i gv 1 hg]
    rw [hgain] at h
    exact h
  · intro σ fbl chs s i c rt hc hd
    have hzip : (chs.zip (fbl.get_v_in chs s).1)[i]? = some (c, rt) := by
      rw [List.getElem?_zip_eq_some]
      exact ⟨hc, hd⟩
    have h := fblEntries_getElem? none 0 (chs.zip (fbl.get_v_in chs s).1)
      i c rt hzip
    simpa [applyFblGain] using h

/-- Witness for C7 at a concrete channel set with gain 2 on channel 0. -/
theorem claim_C7_witness :
    (([0] : List ℕ)[0]? = some 0) ∧
    (((fblU.get_v_in [0] ()).1)[0]? = some ((1 : ℚ), (0 : ℚ))) ∧
    (([(2 : ℚ)])[0]? = some 2) ∧
    ((fblRead fblU [0] (some [2]) ()).1[2 * 0]? =
        some (EntityId.str (fblRName 0), (1 : ℚ) / 2) ∧
     (fblRead fblU [0] (some [2]) ()).1[2 * 0 + 1]? =
        some (EntityId.str (fblPName 0), (0 : ℚ))) :=
  ⟨rfl, rfl, rfl,
   claim_C7.1 Unit fblU [0] [2] () 0 0 (1, 0) 2 rfl rfl rfl⟩

/-! ## Megasweep: claim C3 -/

theorem megaInner_none_spec {σ : Type} (env : Env σ) (sw : Sweep σ)
    (s_fast s_slow : Param σ) (sp : ℚ) (d : Option ℚ) (t0 : ℚ)
    (vs : List ℚ) (s : σ) :
    (megaInner env sw s_fast s_slow sp d t0 none vs s).2.1 = none ∧
    (megaInner env sw s_fast s_slow sp d t0 none vs s).2.2.1 = false ∧
    (megaInner env sw s_fast s_slow sp d t0 none vs s).1.length = vs.length ∧
    (megaInner env sw s_fast s_slow sp d t0 none vs s).1.map
        (fun r => r.take 2) =
      vs.map (fun v =>
        [(EntityId.param s_slow.id, sp), (EntityId.param s_fast.id, v)]) := by
  induction vs generalizing s with
  | nil => exact ⟨rfl, rfl, rfl, rfl⟩
  | cons v vs ih =>
    obtain ⟨ih1, ih2, ih3, ih4⟩ := ih
      (sr830sRead env sw._sr830s
        (paramsRead sw._params
          (delayBlock env d (s_fast.set v s))).2).2
    refine ⟨?_, ?_, ?_, ?_⟩ <;> simp [megaInner, ih1, ih2, ih3, ih4]

theorem megaOuter_none_spec {σ : Type} (env : Env σ) (sw : Sweep σ)
    (s_fast s_slow : Param σ) (v_fast : List ℚ) (d : Option ℚ) (t0 : ℚ)
    (sps : List ℚ) (s : σ) :
    (megaOuter env sw s_fast s_slow v_fast d t0 none sps s).2.1 = false ∧
    (megaOuter env sw s_fast s_slow v_fast d t0 none sps s).1.length
      = sps.length * v_fast.length ∧
    (megaOuter env sw s_fast s_slow v_fast d t0 none sps s).1.map
        (fun r => r.take 2) =
      sps.flatMap (fun sp => v_fast.map (fun v =>
        [(EntityId.param s_slow.id, sp), (EntityId.param s_fast.id, v)])) := by
  induction sps generalizing s with
  | nil => exact ⟨rfl, by simp [megaOuter], rfl⟩
  | cons sp sps ih =>
    obtain ⟨hi1, hi2, hi3, hi4⟩ := megaInner_none_spec env sw s_fast s_slow sp
      d t0 v_fast (s_slow.set sp s)
    obtain ⟨ih1, ih2, ih3⟩ := ih
      (megaInner env sw s_fast s_slow sp d t0 none v_fast (s_slow.set sp s)).2.2.2
    refine ⟨?_, ?_, ?_⟩
    · simp [megaOuter, hi1, hi2, ih1]
    · simp only [megaOuter, hi1, hi2]
      simp [hi3, ih2, Nat.succ_mul, Nat.add_comm]
    · simp only [megaOuter, hi1, hi2]
      simp [hi4, ih3]

/-- Counting state for the set/get-call bookkeeping of `megasweep`:
(number of slow `set` calls, number of fast `set` calls,
number of followed-parameter `get` calls). -/
abbrev Cnt : Type := ℕ × ℕ × ℕ

/-- Trivial world over the counting state. -/
def envCnt : Env Cnt := ⟨fun _ => 0, fun _ s => s⟩

/-- Slow axis parameter: its `set` bumps the first counter. -/
def slowCnt : Param Cnt := ⟨0, fun s => (0, s), fun _ s => (s.1 + 1, s.2)⟩

/-- Fast axis parameter: its `set` bumps the second counter. -/
def fastCnt : Param Cnt := ⟨1, fun s => (0, s), fun _ s => (s.1, s.2.1 + 1, s.2.2)⟩

/-- A followed parameter whose `get` bumps the third counter. -/
def getCnt : Param Cnt := ⟨2, fun s => (0, (s.1, s.2.1, s.2.2 + 1)), fun _ s => s⟩

/-- Registry following exactly the counting parameter. -/
def swCnt : Sweep Cnt := ⟨[(getCnt, 1)], [], none, [], none⟩

theorem megaInner_cnt (sp : ℚ) (vs : List ℚ) (s : Cnt) :
    (megaInner envCnt swCnt fastCnt slowCnt sp none 0 none vs s).2.2.2 =
      (s.1, s.2.1 + vs.length, s.2.2 + vs.length) := by
  induction vs generalizing s with
  | nil => rfl
  | cons v vs ih =>
    simp only [megaInner, reduceCtorEq, if_neg, Option.map_none']
    rw [ih]
    simp [swCnt, paramsRead, sr830sRead, delayBlock, getCnt, fastCnt, envCnt]
    omega

theorem megaOuter_cnt (v_fast : List ℚ) (sps : List ℚ) (s : Cnt) :
    (megaOuter envCnt swCnt fastCnt slowCnt v_fast none 0 none sps s).2.2 =
      (s.1 + sps.length, s.2.1 + sps.length * v_fast.length,
       s.2.2 + sps.length * v_fast.length) := by
  induction sps generalizing s with
  | nil => simp [megaOuter]
  | cons sp sps ih =>
    obtain ⟨hi1, hi2, _, _⟩ := megaInner_none_spec envCnt swCnt fastCnt slowCnt
      sp none 0 v_fast (slowCnt.set sp s)
    simp only [megaOuter, hi1, hi2, Bool.false_eq_true, if_neg,
      not_false_eq_true]
    rw [ih, megaInner_cnt]
    simp only [slowCnt, List.length_cons, Prod.mk.injEq]
    refine ⟨by ring, by ring, by ring⟩

/-- C3 — An uninterrupted `megasweep` emits exactly
`len(slow_values) * len(fast_values)` records, in row-major order with the
slow entity varying slowest: the record at outer index `i`, inner index `j`
starts with the slow entry `slow_values[i]` followed by the fast entry
`fast_values[j]`, the fast setpoints cycling through all of `fast_values`
inside each slow setpoint; moreover the slow entity is set exactly once per
outer iteration and sampling happens only at inner steps
(`len(slow)` slow set-calls, `len(slow)*len(fast)` fast set-calls and
followed-parameter reads). -/
theorem claim_C3 :
    (∀ (σ : Type) (env : Env σ) (sw : Sweep σ) (s_fast s_slow : Param σ)
        (v_fast v_slow : List ℚ) (d : Option ℚ) (s : σ),
      (Sweep.megasweep env sw s_fast v_fast s_slow v_slow d none s).records.length
          = v_slow.length * v_fast.length ∧
      (Sweep.megasweep env sw s_fast v_fast s_slow v_slow d none s).records.map
          (fun r => r.take 2) =
        v_slow.flatMap (fun sp => v_fast.map (fun v =>
          [(EntityId.param s_slow.id, sp), (EntityId.param s_fast.id, v)]))) ∧
    (∀ v_fast v_slow : List ℚ,
      (Sweep.megasweep envCnt swCnt fastCnt v_fast slowCnt v_slow none none
          (0, 0, 0)).final =
        (v_slow.length, v_slow.length * v_fast.length,
         v_slow.length * v_fast.length)) := by
  constructor
  · intro σ env sw s_fast s_slow v_fast v_slow d s
    obtain ⟨_, h2, h3⟩ := megaOuter_none_spec env sw s_fast s_slow v_fast d
      (env.clock s) v_slow s
    exact ⟨h2, h3⟩
  · intro v_fast v_slow
    show (megaOuter envCnt swCnt fastCnt slowCnt v_fast none _ none v_slow
      (0, 0, 0)).2.2 = _
    have h := megaOuter_cnt v_fast v_slow (0, 0, 0)
    simpa [envCnt] using h

/-! ## Per-step protocol order: claims C1 and C10 -/

/-- Identities contributed by the followed plain parameters, in order. -/
def paramIdList {σ : Type} (sw : Sweep σ) : List EntityId :=
  sw._params.map (fun pg => EntityId.param pg.1.id)

/-- Identities contributed by the followed lock-ins, in order (X then Y). -/
def sr830IdList {σ : Type} (sw : Sweep σ) : List EntityId :=
  sw._sr830s.flatMap (fun lt => [EntityId.param lt.1.xId, EntityId.param lt.1.yId])

/-- Identities contributed by the channel-set block when a channel set is
followed (radius then phase per channel), `[]` otherwise. -/
def fblIdList {σ : Type} (sw : Sweep σ) : List EntityId :=
  match sw._fbl with
  | none => []
  | some _ => sw._fbl_channels.flatMap
      (fun c => [EntityId.str (fblRName c), EntityId.str (fblPName c)])

/-- Identity layout of every `sweep` record: setpoint, time, channel set,
plain parameters, lock-ins. -/
def sweepStepIds {σ : Type} (sw : Sweep σ) (sp : Param σ) : List EntityId :=
  EntityId.param sp.id :: EntityId.str "time" ::
    (fblIdList sw ++ paramIdList sw ++ sr830IdList sw)

/-- Identity layout of every `watch` record: time, plain parameters,
lock-ins, channel set (the channel set comes last in `watch`). -/
def watchStepIds {σ : Type} (sw : Sweep σ) : List EntityId :=
  EntityId.str "time" :: (paramIdList sw ++ sr830IdList sw ++ fblIdList sw)

/-- Identity layout of every `megasweep` record: slow setpoint, fast
setpoint, time, plain parameters, lock-ins — and never the channel set. -/
def megaStepIds {σ : Type} (sw : Sweep σ) (s_fast s_slow : Param σ) :
    List EntityId :=
  EntityId.param s_slow.id :: EntityId.param s_fast.id :: EntityId.str "time" ::
    (paramIdList sw ++ sr830IdList sw)

theorem paramsRead_map_fst {σ : Type} (ps : List (Param σ × ℚ)) (s : σ) :
    (paramsRead ps s).1.map Prod.fst =
      ps.map (fun pg => EntityId.param pg.1.id) := by
  induction ps generalizing s with
  | nil => rfl
  | cons pg rest ih => simp [paramsRead, ih]

theorem sr830sRead_map_fst {σ : Type} (env : Env σ)
    (ls : List (SR830 σ × ℚ × Bool)) (s : σ) :
    (sr830sRead env ls s).1.map Prod.fst =
      ls.flatMap (fun lt => [EntityId.param lt.1.xId, EntityId.param lt.1.yId]) := by
  induction ls generalizing s with
  | nil => rfl
  | cons lt rest ih => simp [sr830sRead, ih]

theorem fblEntries_map_fst (gains : Option (List ℚ)) (j : ℕ)
    (pairs : List (ℕ × (ℚ × ℚ))) :
    (fblEntries gains j pairs).map Prod.fst =
      pairs.flatMap
        (fun pr => [EntityId.str (fblRName pr.1), EntityId.str (fblPName pr.1)]) := by
  induction pairs generalizing j with
  | nil => rfl
  | cons pr rest ih =>
    obtain ⟨c, r, t⟩ := pr
    simp [fblEntries, ih]

theorem zip_flatMap_fst_ids (chs : List ℕ) (d : List (ℚ × ℚ))
    (h : d.length = chs.length) :
    (chs.zip d).flatMap
        (fun pr => [EntityId.str (fblRName pr.1), EntityId.str (fblPName pr.1)]) =
      chs.flatMap (fun c => [EntityId.str (fblRName c), EntityId.str (fblPName c)]) := by
  induction chs generalizing d with
  | nil => rfl
  | cons c rest ih =>
    match d with
    | [] => simp at h
    | rt :: dtl =>
      simp only [List.length_cons, Nat.succ.injEq] at h
      rw [List.zip_cons_cons]
      simp only [List.flatMap_cons]
      rw [ih dtl h]

theorem fblBlock_map_fst {σ : Type} (sw : Sweep σ) (s : σ)
    (hfbl : ∀ f : Fbl σ, sw._fbl = some f →
      ((f.get_v_in sw._fbl_channels s).1).length = sw._fbl_channels.length) :
    (fblBlock sw s).1.map Prod.fst = fblIdList sw := by
  unfold fblBlock fblIdList
  cases hf : sw._fbl with
  | none => rfl
  | some f =>
    simp only [fblRead]
    rw [fblEntries_map_fst]
    exact zip_flatMap_fst_ids sw._fbl_channels (f.get_v_in sw._fbl_channels s).1
      (hfbl f hf)

theorem sweepLoop_none_ids {σ : Type} (env : Env σ) (sw : Sweep σ)
    (sp : Param σ) (d : Option ℚ) (t0 : ℚ) (vs : List ℚ) (s : σ)
    (hfbl : ∀ f : Fbl σ, sw._fbl = some f → ∀ st : σ,
      ((f.get_v_in sw._fbl_channels st).1).length = sw._fbl_channels.length) :
    ∀ r ∈ (sweepLoop env sw sp d t0 none vs s).1,
      recordIds r = sweepStepIds sw sp := by
  induction vs generalizing s with
  | nil => intro r hr; simp [sweepLoop] at hr
  | cons v vs ih =>
    intro r hr
    simp only [sweepLoop, reduceCtorEq, Option.map_none'] at hr
    rw [if_neg not_false] at hr
    simp only [List.mem_cons] at hr
    rcases hr with hr | hr
    · subst hr
      simp only [recordIds, sweepStepIds, List.map_cons, List.map_append,
        List.cons.injEq]
      refine ⟨trivial, trivial, ?_⟩
      rw [fblBlock_map_fst sw _ (fun f hf => hfbl f hf _),
        paramsRead_map_fst, sr830sRead_map_fst]
      rfl
    · exact ih _ r hr

theorem watchLoop_ids {σ : Type} (env : Env σ) (sw : Sweep σ)
    (maxd : Option ℚ) (d : Option ℚ) (t0 : ℚ) (fuel : ℕ) (intr : Option ℕ)
    (t : ℚ) (s : σ) (res : List Record × Bool × σ)
    (hres : watchLoop env sw maxd d t0 fuel intr t s = some res)
    (hfbl : ∀ f : Fbl σ, sw._fbl = some f → ∀ st : σ,
      ((f.get_v_in sw._fbl_channels st).1).length = sw._fbl_channels.length) :
    ∀ r ∈ res.1, recordIds r = watchStepIds sw := by
  induction fuel generalizing intr t s res with
  | zero => simp [watchLoop] at hres
  | succ fuel ih =>
    intro r hr
    rw [watchLoop] at hres
    by_cases hg : watchCond maxd t = true
    · rw [if_pos hg] at hres
      by_cases hintr : intr = some 0
      · rw [if_pos hintr] at hres
        injection hres with h
        subst h
        simp at hr
      · rw [if_neg hintr] at hres
        cases hrec : watchLoop env sw maxd d t0 fuel
            (intr.map (fun n => n - 1)) (env.clock s - t0)
            (watchStep env sw d s).2 with
        | none => rw [hrec] at hres; simp at hres
        | some rest =>
          rw [hrec] at hres
          injection hres with h
          subst h
          simp only [List.mem_cons] at hr
          rcases hr with hr | hr
          · subst hr
            simp only [recordIds, watchStepIds, watchStep, List.map_cons,
              List.cons.injEq]
            refine ⟨trivial, ?_⟩
            simp only [List.map_append]
            rw [paramsRead_map_fst, sr830sRead_map_fst,
              fblBlock_map_fst sw _ (fun f hf => hfbl f hf _)]
            rfl
          · exact ih _ _ _ rest hrec r hr
    · rw [if_neg hg] at hres
      injection hres with h
      subst h
      simp at hr

theorem megaInner_none_ids {σ : Type} (env : Env σ) (sw : Sweep σ)
    (s_fast s_slow : Param σ) (sp : ℚ) (d : Option ℚ) (t0 : ℚ)
    (vs : List ℚ) (s : σ) :
    ∀ r ∈ (megaInner env sw s_fast s_slow sp d t0 none vs s).1,
      recordIds r = megaStepIds sw s_fast s_slow := by
  induction vs generalizing s with
  | nil => intro r hr; simp [megaInner] at hr
  | cons v vs ih =>
    intro r hr
    simp only [megaInner, reduceCtorEq, Option.map_none'] at hr
    rw [if_neg not_false] at hr
    simp only [List.mem_cons] at hr
    rcases hr with hr | hr
    · subst hr
      simp only [recordIds, megaStepIds, List.map_cons, List.map_append,
        List.cons.injEq]
      refine ⟨trivial, trivial, trivial, ?_⟩
      rw [paramsRead_map_fst, sr830sRead_map_fst]
      rfl
    · exact ih _ r hr

theorem megaOuter_none_ids {σ : Type} (env : Env σ) (sw : Sweep σ)
    (s_fast s_slow : Param σ) (v_fast : List ℚ) (d : Option ℚ) (t0 : ℚ)
    (sps : List ℚ) (s : σ) :
    ∀ r ∈ (megaOuter env sw s_fast s_slow v_fast d t0 none sps s).1,
      recordIds r = megaStepIds sw s_fast s_slow := by
  induction sps generalizing s with
  | nil => intro r hr; simp [megaOuter] at hr
  | cons sp sps ih =>
    intro r hr
    obtain ⟨hi1, hi2, _, _⟩ := megaInner_none_spec env sw s_fast s_slow sp d t0
      v_fast (s_slow.set sp s)
    simp only [megaOuter, hi1, hi2, Bool.false_eq_true, if_neg,
      not_false_eq_true, List.mem_append] at hr
    rcases hr with hr | hr
    · exact megaInner_none_ids env sw s_fast s_slow sp d t0 v_fast _ r hr
    · exact ih _ r hr

/-- C1 (amended) — Each mode's uninterrupted steps share the protocol of
applying setpoints (sweep/megasweep), taking the optional delay, then
sampling the followed entities, but the sampling order and coverage differ
per mode: every `sweep` record is laid out as
(setpoint, time, channel set, plain parameters, lock-ins) — the §4.3 order;
every `watch` record as (time, plain parameters, lock-ins, channel set) —
the channel set read *last*, not before the plain parameters; and every
`megasweep` record as (slow setpoint, fast setpoint, time, plain parameters,
lock-ins) — `megasweep` never reads the channel set, so its records lack the
channel-set values even when a channel set is followed. -/
theorem claim_C1 {σ : Type} (env : Env σ) (sw : Sweep σ)
    (hfbl : ∀ f : Fbl σ, sw._fbl = some f → ∀ st : σ,
      ((f.get_v_in sw._fbl_channels st).1).length = sw._fbl_channels.length) :
    (∀ (sp : Param σ) (vals : List ℚ) (d : Option ℚ) (s : σ),
      ∀ r ∈ (Sweep.sweep env sw sp vals d none s).records,
        recordIds r = sweepStepIds sw sp) ∧
    (∀ (maxd d : Option ℚ) (t0 : ℚ) (fuel : ℕ) (t : ℚ) (s : σ)
        (res : List Record × Bool × σ),
      watchLoop env sw maxd d t0 fuel none t s = some res →
      ∀ r ∈ res.1, recordIds r = watchStepIds sw) ∧
    (∀ (s_fast : Param σ) (v_fast : List ℚ) (s_slow : Param σ)
        (v_slow : List ℚ) (d : Option ℚ) (s : σ),
      ∀ r ∈ (Sweep.megasweep env sw s_fast v_fast s_slow v_slow d none s).records,
        recordIds r = megaStepIds sw s_fast s_slow) := by
  refine ⟨?_, ?_, ?_⟩
  · intro sp vals d s r hr
    exact sweepLoop_none_ids env sw sp d (env.clock s) vals s hfbl r hr
  · intro maxd d t0 fuel t s res hres r hr
    exact watchLoop_ids env sw maxd d t0 fuel none t s res hres hfbl r hr
  · intro s_fast v_fast s_slow v_slow d s r hr
    exact megaOuter_none_ids env sw s_fast s_slow v_fast d (env.clock s)
      v_slow s r hr

/-- Registry over the trivial world following only channel 0 of the
channel set. -/
def swFblU : Sweep Unit := ⟨[], [], some fblU, [0], none⟩

/-- Witness for C1 (amended) at a concrete registry with a followed channel
set: the single sweep record is laid out (setpoint, time, fbl radius, fbl
phase). -/
theorem claim_C1_witness :
    (∀ f : Fbl Unit, swFblU._fbl = some f → ∀ st : Unit,
      ((f.get_v_in swFblU._fbl_channels st).1).length
        = swFblU._fbl_channels.length) ∧
    (∀ r ∈ (Sweep.sweep envU swFblU (paramU 7) [0] none none ()).records,
      recordIds r = sweepStepIds swFblU (paramU 7)) :=
  ⟨fun f hf st => by cases hf; rfl,
   (claim_C1 envU swFblU (fun f hf st => by cases hf; rfl)).1
     (paramU 7) [0] none ()⟩

/-- C1, as stated, is false at a concrete input: a `megasweep` over a
registry with a followed channel set produces a record that contains no
channel-set entry at all (and so does not follow the §4.3 step-4 read). -/
theorem claim_C1_counterexample :
    (Sweep.megasweep envU swFblU (paramU 1) [0] (paramU 2) [0] none none
        ()).records.map recordIds =
      [[EntityId.param 2, EntityId.param 1, EntityId.str "time"]] ∧
    ¬ EntityId.str (fblRName 0) ∈
      (Sweep.megasweep envU swFblU (paramU 1) [0] (paramU 2) [0] none none
        ()).records.flatMap recordIds := by
  constructor
  · rfl
  · decide

/-- Schema identities registered by `_create_measurement` versus the record
identities emitted by a followed channel set: the schema registers
`fbl_c{c}_x` for the magnitude while the record emits `fbl_c{c}_r`. -/
theorem schema_vs_record_fbl_names :
    Sweep._create_measurement swFblU [paramU 7] =
      [EntityId.param 7, EntityId.str "time", EntityId.str (fblXName 0),
       EntityId.str (fblPName 0)] := by
  rfl

/-- C10 — the claim is right about what the code must do and the code
violates it: in a `sweep` run with a followed channel set, the emitted
record contains the entity identity `fbl_c0_r`, which `_create_measurement`
never registered (it registered `fbl_c0_x` for that channel's magnitude), so
the record hands `add_result` an unregistered identity. -/
theorem claim_C10 :
    EntityId.str (fblRName 0) ∈
      (Sweep.sweep envU swFblU (paramU 7) [0] none none
        ()).records.flatMap recordIds ∧
    ¬ EntityId.str (fblRName 0) ∈ Sweep._create_measurement swFblU [paramU 7] := by
  constructor
  · decide
  · decide

/-! ## Interrupt semantics: claim C9 -/

theorem take_append_exact {α : Type} (l1 l2 : List α) (n : ℕ) :
    (l1 ++ l2).take (l1.length + n) = l1 ++ l2.take n := by
  simp [List.take_append_eq_append_take]

theorem sweepLoop_none_flag {σ : Type} (env : Env σ) (sw : Sweep σ)
    (sp : Param σ) (d : Option ℚ) (t0 : ℚ) (vs : List ℚ) (s : σ) :
    (sweepLoop env sw sp d t0 none vs s).2.1 = false := by
  induction vs generalizing s with
  | nil => rfl
  | cons v vs ih => simp [sweepLoop, ih]

theorem sweepLoop_cons_of_ne {σ : Type} (env : Env σ) (sw : Sweep σ)
    (sp : Param σ) (d : Option ℚ) (t0 : ℚ) (intr : Option ℕ) (v : ℚ)
    (vs : List ℚ) (s : σ) (h : intr ≠ some 0) :
    sweepLoop env sw sp d t0 intr (v :: vs) s =
      (((EntityId.param sp.id, v) ::
          (EntityId.str "time", env.clock s - t0) ::
          ((fblBlock sw (delayBlock env d (sp.set v s))).1 ++
            (paramsRead sw._params
              (fblBlock sw (delayBlock env d (sp.set v s))).2).1 ++
            (sr830sRead env sw._sr830s
              (paramsRead sw._params
                (fblBlock sw (delayBlock env d (sp.set v s))).2).2).1)) ::
          (sweepLoop env sw sp d t0 (intr.map (fun n => n - 1)) vs
            (sr830sRead env sw._sr830s
              (paramsRead sw._params
                (fblBlock sw (delayBlock env d (sp.set v s))).2).2).2).1,
        (sweepLoop env sw sp d t0 (intr.map (fun n => n - 1)) vs
          (sr830sRead env sw._sr830s
            (paramsRead sw._params
              (fblBlock sw (delayBlock env d (sp.set v s))).2).2).2).2.1,
        (sweepLoop env sw sp d t0 (intr.map (fun n => n - 1)) vs
          (sr830sRead env sw._sr830s
            (paramsRead sw._params
              (fblBlock sw (delayBlock env d (sp.set v s))).2).2).2).2.2) := by
  simp [sweepLoop, h]

theorem sweepLoop_intr_take {σ : Type} (env : Env σ) (sw : Sweep σ)
    (sp : Param σ) (d : Option ℚ) (t0 : ℚ) :
    ∀ (vs : List ℚ) (k : ℕ) (s : σ), k < vs.length →
    ∃ s', sweepLoop env sw sp d t0 (some k) vs s =
      ((sweepLoop env sw sp d t0 none vs s).1.take k, true, s') := by
  intro vs
  induction vs with
  | nil => intro k s hk; simp at hk
  | cons v vs ih =>
    intro k s hk
    match k with
    | 0 =>
      refine ⟨s, ?_⟩
      simp [sweepLoop]
    | j + 1 =>
      simp only [List.length_cons, Nat.add_lt_add_iff_right] at hk
      obtain ⟨s', hs'⟩ := ih j
        (sr830sRead env sw._sr830s
          (paramsRead sw._params
            (fblBlock sw (delayBlock env d (sp.set v s))).2).2).2 hk
      refine ⟨s', ?_⟩
      rw [sweepLoop_cons_of_ne env sw sp d t0 (some (j + 1)) v vs s (by simp),
        sweepLoop_cons_of_ne env sw sp d t0 none v vs s (by simp)]
      simp only [Option.map_some', Option.map_none', Nat.add_sub_cancel]
      rw [hs']
      simp [List.take_succ_cons]

theorem megaInner_cons_of_ne {σ : Type} (env : Env σ) (sw : Sweep σ)
    (s_fast s_slow : Param σ) (sp : ℚ) (d : Option ℚ) (t0 : ℚ)
    (intr : Option ℕ) (v : ℚ) (vs : List ℚ) (s : σ) (h : intr ≠ some 0) :
    megaInner env sw s_fast s_slow sp d t0 intr (v :: vs) s =
      (((EntityId.param s_slow.id, sp) :: (EntityId.param s_fast.id, v) ::
          (EntityId.str "time", env.clock s - t0) ::
          ((paramsRead sw._params (delayBlock env d (s_fast.set v s))).1 ++
            (sr830sRead env sw._sr830s
              (paramsRead sw._params
                (delayBlock env d (s_fast.set v s))).2).1)) ::
          (megaInner env sw s_fast s_slow sp d t0 (intr.map (fun n => n - 1))
            vs (sr830sRead env sw._sr830s
              (paramsRead sw._params
                (delayBlock env d (s_fast.set v s))).2).2).1,
        (megaInner env sw s_fast s_slow sp d t0 (intr.map (fun n => n - 1))
          vs (sr830sRead env sw._sr830s
            (paramsRead sw._params
              (delayBlock env d (s_fast.set v s))).2).2).2.1,
        (megaInner env sw s_fast s_slow sp d t0 (intr.map (fun n => n - 1))
          vs (sr830sRead env sw._sr830s
            (paramsRead sw._params
              (delayBlock env d (s_fast.set v s))).2).2).2.2.1,
        (megaInner env sw s_fast s_slow sp d t0 (intr.map (fun n => n - 1))
          vs (sr830sRead env sw._sr830s
            (paramsRead sw._params
              (delayBlock env d (s_fast.set v s))).2).2).2.2.2) := by
  simp [megaInner, h]

theorem megaInner_intr_take {σ : Type} (env : Env σ) (sw : Sweep σ)
    (s_fast s_slow : Param σ) (sp : ℚ) (d : Option ℚ) (t0 : ℚ) :
    ∀ (vs : List ℚ) (k : ℕ) (s : σ), k < vs.length →
    ∃ s', megaInner env sw s_fast s_slow sp d t0 (some k) vs s =
      ((megaInner env sw s_fast s_slow sp d t0 none vs s).1.take k,
        some 0, true, s') := by
  intro vs
  induction vs with
  | nil => intro k s hk; simp at hk
  | cons v vs ih =>
    intro k s hk
    match k with
    | 0 =>
      refine ⟨s, ?_⟩
      simp [megaInner]
    | j + 1 =>
      simp only [List.length_cons, Nat.add_lt_add_iff_right] at hk
      obtain ⟨s', hs'⟩ := ih j
        (sr830sRead env sw._sr830s
          (paramsRead sw._params (delayBlock env d (s_fast.set v s))).2).2 hk
      refine ⟨s', ?_⟩
      rw [megaInner_cons_of_ne env sw s_fast s_slow sp d t0 (some (j + 1))
          v vs s (by simp),
        megaInner_cons_of_ne env sw s_fast s_slow sp d t0 none v vs s (by simp)]
      simp only [Option.map_some', Option.map_none', Nat.add_sub_cancel]
      rw [hs']
      simp [List.take_succ_cons]

theorem megaInner_intr_pass {σ : Type} (env : Env σ) (sw : Sweep σ)
    (s_fast s_slow : Param σ) (sp : ℚ) (d : Option ℚ) (t0 : ℚ) :
    ∀ (vs : List ℚ) (k : ℕ) (s : σ), vs.length ≤ k →
    megaInner env sw s_fast s_slow sp d t0 (some k) vs s =
      ((megaInner env sw s_fast s_slow sp d t0 none vs s).1,
        some (k - vs.length), false,
        (megaInner env sw s_fast s_slow sp d t0 none vs s).2.2.2) := by
  intro vs
  induction vs with
  | nil => intro k s _; simp [megaInner]
  | cons v vs ih =>
    intro k s hk
    match k with
    | 0 => simp at hk
    | j + 1 =>
      simp only [List.length_cons, Nat.add_le_add_iff_right] at hk
      have hrec := ih j
        (sr830sRead env sw._sr830s
          (paramsRead sw._params (delayBlock env d (s_fast.set v s))).2).2 hk
      rw [megaInner_cons_of_ne env sw s_fast s_slow sp d t0 (some (j + 1))
          v vs s (by simp),
        megaInner_cons_of_ne env sw s_fast s_slow sp d t0 none v vs s (by simp)]
      simp only [Option.map_some', Option.map_none', Nat.add_sub_cancel]
      rw [hrec]
      simp

theorem megaOuter_cons_interrupted {σ : Type} (env : Env σ) (sw : Sweep σ)
    (s_fast s_slow : Param σ) (v_fast : List ℚ) (d : Option ℚ) (t0 : ℚ)
    (intr : Option ℕ) (sp : ℚ) (sps : List ℚ) (s : σ)
    (h : (megaInner env sw s_fast s_slow sp d t0 intr v_fast
      (s_slow.set sp s)).2.2.1 = true) :
    megaOuter env sw s_fast s_slow v_fast d t0 intr (sp :: sps) s =
      ((megaInner env sw s_fast s_slow sp d t0 intr v_fast
          (s_slow.set sp s)).1, true,
        (megaInner env sw s_fast s_slow sp d t0 intr v_fast
          (s_slow.set sp s)).2.2.2) := by
  simp [megaOuter, h]

theorem megaOuter_cons_passed {σ : Type} (env : Env σ) (sw : Sweep σ)
    (s_fast s_slow : Param σ) (v_fast : List ℚ) (d : Option ℚ) (t0 : ℚ)
    (intr : Option ℕ) (sp : ℚ) (sps : List ℚ) (s : σ)
    (h : (megaInner env sw s_fast s_slow sp d t0 intr v_fast
      (s_slow.set sp s)).2.2.1 = false) :
    megaOuter env sw s_fast s_slow v_fast d t0 intr (sp :: sps) s =
      ((megaInner env sw s_fast s_slow sp d t0 intr v_fast
          (s_slow.set sp s)).1 ++
        (megaOuter env sw s_fast s_slow v_fast d t0
          (megaInner env sw s_fast s_slow sp d t0 intr v_fast
            (s_slow.set sp s)).2.1 sps
          (megaInner env sw s_fast s_slow sp d t0 intr v_fast
            (s_slow.set sp s)).2.2.2).1,
        (megaOuter env sw s_fast s_slow v_fast d t0
          (megaInner env sw s_fast s_slow sp d t0 intr v_fast
            (s_slow.set sp s)).2.1 sps
          (megaInner env sw s_fast s_slow sp d t0 intr v_fast
            (s_slow.set sp s)).2.2.2).2.1,
        (megaOuter env sw s_fast s_slow v_fast d t0
          (megaInner env sw s_fast s_slow sp d t0 intr v_fast
            (s_slow.set sp s)).2.1 sps
          (megaInner env sw s_fast s_slow sp d t0 intr v_fast
            (s_slow.set sp s)).2.2.2).2.2) := by
  simp [megaOuter, h]

theorem megaOuter_intr_take {σ : Type} (env : Env σ) (sw : Sweep σ)
    (s_fast s_slow : Param σ) (v_fast : List ℚ) (d : Option ℚ) (t0 : ℚ) :
    ∀ (sps : List ℚ) (k : ℕ) (s : σ), k < sps.length * v_fast.length →
    ∃ s', megaOuter env sw s_fast s_slow v_fast d t0 (some k) sps s =
      ((megaOuter env sw s_fast s_slow v_fast d t0 none sps s).1.take k,
        true, s') := by
  intro sps
  induction sps with
  | nil => intro k s hk; simp at hk
  | cons sp sps ih =>
    intro k s hk
    obtain ⟨hi1, hi2, hi3, _⟩ := megaInner_none_spec env sw s_fast s_slow sp
      d t0 v_fast (s_slow.set sp s)
    rw [megaOuter_cons_passed env sw s_fast s_slow v_fast d t0 none sp sps s
      hi2]
    by_cases hcase : k < v_fast.length
    · obtain ⟨s', hs'⟩ := megaInner_intr_take env sw s_fast s_slow sp d t0
        v_fast k (s_slow.set sp s) hcase
      refine ⟨s', ?_⟩
      rw [megaOuter_cons_interrupted env sw s_fast s_slow v_fast d t0
        (some k) sp sps s (by rw [hs'])]
      rw [List.take_append_of_le_length (by omega)]
      rw [hs']
    · push_neg at hcase
      have hpass := megaInner_intr_pass env sw s_fast s_slow sp d t0 v_fast k
        (s_slow.set sp s) hcase
      have hklt : k - v_fast.length < sps.length * v_fast.length := by
        simp only [List.length_cons] at hk
        have hmul : (sps.length + 1) * v_fast.length =
            sps.length * v_fast.length + v_fast.length := by ring
        omega
      obtain ⟨s', hs'⟩ := ih (k - v_fast.length)
        (megaInner env sw s_fast s_slow sp d t0 none v_fast
          (s_slow.set sp s)).2.2.2 hklt
      refine ⟨s', ?_⟩
      rw [megaOuter_cons_passed env sw s_fast s_slow v_fast d t0
        (some k) sp sps s (by rw [hpass])]
      have hproj1 : (megaInner env sw s_fast s_slow sp d t0 (some k) v_fast
          (s_slow.set sp s)).1 =
          (megaInner env sw s_fast s_slow sp d t0 none v_fast
            (s_slow.set sp s)).1 := by rw [hpass]
      have hproj2 : (megaInner env sw s_fast s_slow sp d t0 (some k) v_fast
          (s_slow.set sp s)).2.1 = some (k - v_fast.length) := by rw [hpass]
      have hproj3 : (megaInner env sw s_fast s_slow sp d t0 (some k) v_fast
          (s_slow.set sp s)).2.2.2 =
          (megaInner env sw s_fast s_slow sp d t0 none v_fast
            (s_slow.set sp s)).2.2.2 := by rw [hpass]
      rw [hproj1, hproj2, hproj3, hs']
      have hsplit : k = (megaInner env sw s_fast s_slow sp d t0 none v_fast
          (s_slow.set sp s)).1.length + (k - v_fast.length) := by
        omega
      conv_rhs => rw [hsplit]
      rw [take_append_exact]
      simp [hi1]

theorem watchLoop_intr_take {σ : Type} (env : Env σ) (sw : Sweep σ)
    (maxd : Option ℚ) (d : Option ℚ) (t0 : ℚ) :
    ∀ (fuel : ℕ) (k : ℕ) (t : ℚ) (s : σ) (res : List Record × Bool × σ),
    watchLoop env sw maxd d t0 fuel none t s = some res →
    k < res.1.length →
    ∃ s', watchLoop env sw maxd d t0 fuel (some k) t s =
      some (res.1.take k, true, s') := by
  intro fuel
  induction fuel with
  | zero => intro k t s res hres hk; simp [watchLoop] at hres
  | succ fuel ih =>
    intro k t s res hres hk
    rw [watchLoop] at hres
    by_cases hg : watchCond maxd t = true
    · rw [if_pos hg] at hres
      rw [if_neg (by simp : ¬ (none : Option ℕ) = some 0)] at hres
      simp only [Option.map_none'] at hres
      cases hrec : watchLoop env sw maxd d t0 fuel none (env.clock s - t0)
          (watchStep env sw d s).2 with
      | none => rw [hrec] at hres; simp at hres
      | some rest =>
        rw [hrec] at hres
        injection hres with h
        subst h
        match k with
        | 0 =>
          refine ⟨s, ?_⟩
          rw [watchLoop, if_pos hg, if_pos rfl]
          rfl
        | j + 1 =>
          simp only [List.length_cons, Nat.add_lt_add_iff_right] at hk
          obtain ⟨s', hs'⟩ := ih j (env.clock s - t0) (watchStep env sw d s).2
            rest hrec hk
          refine ⟨s', ?_⟩
          rw [watchLoop, if_pos hg,
            if_neg (by simp : ¬ (some (j + 1) : Option ℕ) = some 0)]
          simp only [Option.map_some', Nat.add_sub_cancel]
          rw [hs']
          simp [List.take_succ_cons]
    · rw [if_neg hg] at hres
      injection hres with h
      subst h
      simp at hk

/-- C9 — If a `KeyboardInterrupt` arrives during any of the three modes
after `k` complete steps (embedded as `intr = some k`), the run stops
without starting further steps: the committed records are exactly the first
`k` records of the uninterrupted run (so no partial record for the
abandoned step appears — a record is emitted only after all of its values
have been read), the run is flagged interrupted, and a human-readable
elapsed-duration report (`'Completed in: ' + _sec_to_str(elapsed)`) is
produced on both normal completion and interruption. -/
theorem claim_C9 {σ : Type} (env : Env σ) (sw : Sweep σ) :
    (∀ (sp : Param σ) (vals : List ℚ) (d : Option ℚ) (s : σ) (k : ℕ),
      k < vals.length →
      (Sweep.sweep env sw sp vals d (some k) s).records =
        (Sweep.sweep env sw sp vals d none s).records.take k ∧
      (Sweep.sweep env sw sp vals d (some k) s).records.length = k ∧
      (Sweep.sweep env sw sp vals d (some k) s).interrupted = true ∧
      (Sweep.sweep env sw sp vals d none s).interrupted = false ∧
      (∃ q, (Sweep.sweep env sw sp vals d (some k) s).report =
        "Completed in: " ++ _sec_to_str q) ∧
      (∃ q, (Sweep.sweep env sw sp vals d none s).report =
        "Completed in: " ++ _sec_to_str q)) ∧
    (∀ (s_fast : Param σ) (v_fast : List ℚ) (s_slow : Param σ)
        (v_slow : List ℚ) (d : Option ℚ) (s : σ) (k : ℕ),
      k < v_slow.length * v_fast.length →
      (Sweep.megasweep env sw s_fast v_fast s_slow v_slow d (some k) s).records =
        (Sweep.megasweep env sw s_fast v_fast s_slow v_slow d none s).records.take k ∧
      (Sweep.megasweep env sw s_fast v_fast s_slow v_slow d (some k) s).records.length = k ∧
      (Sweep.megasweep env sw s_fast v_fast s_slow v_slow d (some k) s).interrupted = true ∧
      (Sweep.megasweep env sw s_fast v_fast s_slow v_slow d none s).interrupted = false ∧
      (∃ q, (Sweep.megasweep env sw s_fast v_fast s_slow v_slow d (some k) s).report =
        "Completed in: " ++ _sec_to_str q) ∧
      (∃ q, (Sweep.megasweep env sw s_fast v_fast s_slow v_slow d none s).report =
        "Completed in: " ++ _sec_to_str q)) ∧
    (∀ (maxd d : Option ℚ) (t0 : ℚ) (fuel : ℕ) (t : ℚ) (s : σ)
        (res : List Record × Bool × σ) (k : ℕ),
      watchLoop env sw maxd d t0 fuel none t s = some res →
      k < res.1.length →
      ∃ s', watchLoop env sw maxd d t0 fuel (some k) t s =
        some (res.1.take k, true, s')) := by
  refine ⟨?_, ?_, ?_⟩
  · intro sp vals d s k hk
    obtain ⟨s', hs'⟩ := sweepLoop_intr_take env sw sp d (env.clock s) vals k s hk
    have hlen := sweepLoop_none_length env sw sp d (env.clock s) vals s
    have hflag := sweepLoop_none_flag env sw sp d (env.clock s) vals s
    refine ⟨?_, ?_, ?_, ?_, ⟨_, rfl⟩, ⟨_, rfl⟩⟩
    · show (sweepLoop env sw sp d (env.clock s) (some k) vals s).1 = _
      rw [hs']
      rfl
    · show (sweepLoop env sw sp d (env.clock s) (some k) vals s).1.length = k
      rw [hs']
      simp only [List.length_take, hlen]
      omega
    · show (sweepLoop env sw sp d (env.clock s) (some k) vals s).2.1 = true
      rw [hs']
    · exact hflag
  · intro s_fast v_fast s_slow v_slow d s k hk
    obtain ⟨s', hs'⟩ := megaOuter_intr_take env sw s_fast s_slow v_fast d
      (env.clock s) v_slow k s hk
    obtain ⟨hflag, hlen, _⟩ := megaOuter_none_spec env sw s_fast s_slow v_fast
      d (env.clock s) v_slow s
    refine ⟨?_, ?_, ?_, ?_, ⟨_, rfl⟩, ⟨_, rfl⟩⟩
    · show (megaOuter env sw s_fast s_slow v_fast d (env.clock s) (some k)
        v_slow s).1 = _
      rw [hs']
      rfl
    · show (megaOuter env sw s_fast s_slow v_fast d (env.clock s) (some k)
        v_slow s).1.length = k
      rw [hs']
      simp only [List.length_take, hlen]
      omega
    · show (megaOuter env sw s_fast s_slow v_fast d (env.clock s) (some k)
        v_slow s).2.1 = true
      rw [hs']
    · exact hflag
  · intro maxd d t0 fuel t s res k hres hk
    exact watchLoop_intr_take env sw maxd d t0 fuel k t s res hres hk

/-- Witness for C9: interrupts after 1 complete step of a 3-step sweep, of a
1×2 megasweep, and of a 2-record watch run. -/
theorem claim_C9_witness :
    ((1 < ([(0 : ℚ), 1, 2]).length) ∧
      ((Sweep.sweep envU swU (paramU 5) [0, 1, 2] none (some 1) ()).records =
        (Sweep.sweep envU swU (paramU 5) [0, 1, 2] none none ()).records.take 1 ∧
       (Sweep.sweep envU swU (paramU 5) [0, 1, 2] none (some 1) ()).records.length = 1 ∧
       (Sweep.sweep envU swU (paramU 5) [0, 1, 2] none (some 1) ()).interrupted = true ∧
       (Sweep.sweep envU swU (paramU 5) [0, 1, 2] none none ()).interrupted = false ∧
       (∃ q, (Sweep.sweep envU swU (paramU 5) [0, 1, 2] none (some 1) ()).report =
         "Completed in: " ++ _sec_to_str q) ∧
       (∃ q, (Sweep.sweep envU swU (paramU 5) [0, 1, 2] none none ()).report =
         "Completed in: " ++ _sec_to_str q))) ∧
    ((1 < ([(0 : ℚ)]).length * ([(0 : ℚ), 1]).length) ∧
      ((Sweep.megasweep envU swU (paramU 1) [0, 1] (paramU 2) [0] none (some 1) ()).records =
        (Sweep.megasweep envU swU (paramU 1) [0, 1] (paramU 2) [0] none none ()).records.take 1 ∧
       (Sweep.megasweep envU swU (paramU 1) [0, 1] (paramU 2) [0] none (some 1) ()).records.length = 1 ∧
       (Sweep.megasweep envU swU (paramU 1) [0, 1] (paramU 2) [0] none (some 1) ()).interrupted = true ∧
       (Sweep.megasweep envU swU (paramU 1) [0, 1] (paramU 2) [0] none none ()).interrupted = false ∧
       (∃ q, (Sweep.megasweep envU swU (paramU 1) [0, 1] (paramU 2) [0] none (some 1) ()).report =
         "Completed in: " ++ _sec_to_str q) ∧
       (∃ q, (Sweep.megasweep envU swU (paramU 1) [0, 1] (paramU 2) [0] none none ()).report =
         "Completed in: " ++ _sec_to_str q))) ∧
    (watchLoop envQ swQ (some 1) (some 1) 0 3 none 0 0 =
        some ([[(EntityId.str "time", (0 : ℚ))], [(EntityId.str "time", 1)]],
          false, 2) ∧
     (1 < ([[(EntityId.str "time", (0 : ℚ))], [(EntityId.str "time", 1)]]).length) ∧
     (∃ s', watchLoop envQ swQ (some 1) (some 1) 0 3 (some 1) 0 0 =
       some (([[(EntityId.str "time", (0 : ℚ))],
         [(EntityId.str "time", 1)]]).take 1, true, s'))) := by
  have hw : watchLoop envQ swQ (some 1) (some 1) 0 3 none 0 0 =
      some ([[(EntityId.str "time", (0 : ℚ))], [(EntityId.str "time", 1)]],
        false, 2) := by
    norm_num [watchLoop, watchStep, watchCond, delayBlock, paramsRead,
      sr830sRead, fblBlock, envQ, swQ]
    decide
  refine ⟨⟨by decide, (claim_C9 envU swU).1 (paramU 5) [0, 1, 2] none () 1
      (by decide)⟩,
    ⟨by decide, (claim_C9 envU swU).2.1 (paramU 1) [0, 1] (paramU 2) [0]
      none () 1 (by decide)⟩,
    hw, by decide, ?_⟩
  exact (claim_C9 envQ swQ).2.2 (some 1) (some 1) 0 3 0 0
    ([[(EntityId.str "time", (0 : ℚ))], [(EntityId.str "time", 1)]], false, 2)
    1 hw (by decide)

/-! ## Watch termination and time bound: claim C8 -/

theorem watchCond_true_iff (D t : ℚ) :
    watchCond (some D) t = true ↔ t < D := by
  simp [watchCond]

theorem watchCond_false_iff (D t : ℚ) :
    watchCond (some D) t = false ↔ D ≤ t := by
  simp [watchCond]

theorem watchLoop_term {σ : Type} (env : Env σ) (sw : Sweep σ) (d : Option ℚ)
    (D δ t0 : ℚ) (hδ : 0 < δ)
    (hadv : ∀ st : σ, env.clock st + δ ≤ env.clock ((watchStep env sw d st).2)) :
    ∀ (fuel : ℕ) (t : ℚ) (s : σ),
      1 ≤ fuel →
      t ≤ env.clock s - t0 →
      (D ≤ t ∨ (2 ≤ fuel ∧ D ≤ (env.clock s - t0) + ((fuel : ℚ) - 2) * δ)) →
      ∃ recs s',
        watchLoop env sw (some D) d t0 fuel none t s = some (recs, false, s') ∧
        D ≤ env.clock s' - t0 ∧
        (recs = [] → D ≤ t) ∧
        ((∃ r tL, recs.getLast? = some r ∧
            r.head? = some (EntityId.str "time", tL) ∧ D ≤ tL) ∨
          (recs = [] ∧ D ≤ t)) := by
  intro fuel
  induction fuel with
  | zero =>
    intro t s h1 _ _
    exact absurd h1 (by omega)
  | succ f ih =>
    intro t s _ hts hdisj
    by_cases hg : t < D
    · have hgc : watchCond (some D) t = true := (watchCond_true_iff D t).mpr hg
      have hf2 : 2 ≤ f + 1 ∧ D ≤ (env.clock s - t0) + ((f : ℚ) - 1) * δ := by
        rcases hdisj with h | ⟨h2, hD2⟩
        · exact absurd hg (not_lt.mpr h)
        · refine ⟨h2, ?_⟩
          push_cast at hD2
          linarith
      have hf : 1 ≤ f := by omega
      have hstep := hadv s
      have hts' : env.clock s - t0 ≤
          env.clock ((watchStep env sw d s).2) - t0 := by linarith
      have hrecdisj : D ≤ env.clock s - t0 ∨
          (2 ≤ f ∧ D ≤ (env.clock ((watchStep env sw d s).2) - t0) +
            ((f : ℚ) - 2) * δ) := by
        by_cases hf2' : 2 ≤ f
        · right
          refine ⟨hf2', ?_⟩
          linarith [hf2.2]
        · left
          have hfeq : f = 1 := by omega
          subst hfeq
          have := hf2.2
          norm_num at this
          linarith
      obtain ⟨recs', s', hloop, hDs', hnil, hlast⟩ :=
        ih (env.clock s - t0) ((watchStep env sw d s).2) hf hts' hrecdisj
      refine ⟨((EntityId.str "time", env.clock s - t0) ::
          (watchStep env sw d s).1) :: recs', s', ?_, hDs', by simp, ?_⟩
      · rw [watchLoop, if_pos hgc,
          if_neg (by simp : ¬ (none : Option ℕ) = some 0)]
        simp only [Option.map_none']
        rw [hloop]
      · left
        cases recs' with
        | nil =>
          exact ⟨(EntityId.str "time", env.clock s - t0) ::
            (watchStep env sw d s).1, env.clock s - t0, by simp, rfl, hnil rfl⟩
        | cons r2 rl =>
          rcases hlast with ⟨r, tL, hgl, hhd, hDtL⟩ | ⟨habs, _⟩
          · refine ⟨r, tL, ?_, hhd, hDtL⟩
            rw [List.getLast?_cons_cons]
            exact hgl
          · exact absurd habs (by simp)
    · have hge : D ≤ t := not_lt.mp hg
      have hgc : watchCond (some D) t = false := (watchCond_false_iff D t).mpr hge
      refine ⟨[], s, ?_, by linarith, fun _ => hge, Or.inr ⟨rfl, hge⟩⟩
      rw [watchLoop, if_neg (by simp [hgc])]

/-- C8 — `watch(max_duration = D)` with `D > 0` terminates once the clock
advances at least `δ > 0` per iteration (with fuel covering `D/δ` guard
checks), its total elapsed time is at least `D`, it emits at least one
record even when `D` is smaller than one sample's delay (the pre-loop guard
value is 0 < D, so the body runs at least once), and the overshoot beyond
`D` is at most one iteration: the elapsed value `tL` recorded at the start
of the final executed iteration — the value whose re-check stopped the loop
— already satisfies `D ≤ tL`, so everything past `D` happened within that
one final iteration. -/
theorem claim_C8 {σ : Type} (env : Env σ) (sw : Sweep σ) (d : Option ℚ)
    (D δ : ℚ) (fuel : ℕ) (s : σ) (hD : 0 < D) (hδ : 0 < δ)
    (hadv : ∀ st : σ, env.clock st + δ ≤ env.clock ((watchStep env sw d st).2))
    (hfuel1 : 2 ≤ fuel) (hfuel2 : D ≤ ((fuel : ℚ) - 2) * δ) :
    ∃ res : RunResult σ,
      Sweep.watch env sw (some D) d fuel none s = some res ∧
      1 ≤ res.records.length ∧
      D ≤ env.clock res.final - env.clock s ∧
      (∃ r tL, res.records.getLast? = some r ∧
        r.head? = some (EntityId.str "time", tL) ∧ D ≤ tL) := by
  obtain ⟨recs, s', hloop, hDs', hnil, hlast⟩ :=
    watchLoop_term env sw d D δ (env.clock s) hδ hadv fuel
      (env.clock s - env.clock s) s (by omega) (le_refl _)
      (Or.inr ⟨hfuel1, by rw [sub_self, zero_add]; exact hfuel2⟩)
  have hne : recs ≠ [] := by
    intro h
    have hd0 := hnil h
    rw [sub_self] at hd0
    linarith
  refine ⟨⟨recs, false,
    "Completed in: " ++ _sec_to_str (env.clock s' - env.clock s), s'⟩,
    ?_, ?_, hDs', ?_⟩
  · simp only [Sweep.watch]
    rw [hloop]
  · have hpos : 0 < recs.length := List.length_pos.mpr hne
    show 1 ≤ recs.length
    omega
  · rcases hlast with h | ⟨habs, _⟩
    · exact h
    · exact absurd habs hne

/-- Witness for C8: the clock world with a 1-second delay per iteration and
`max_duration = 1`. -/
theorem claim_C8_witness :
    ((0 : ℚ) < 1) ∧ ((0 : ℚ) < 1) ∧
    (∀ st : ℚ, envQ.clock st + 1 ≤ envQ.clock ((watchStep envQ swQ (some 1) st).2)) ∧
    ((2 : ℕ) ≤ 3) ∧ ((1 : ℚ) ≤ (((3 : ℕ) : ℚ) - 2) * 1) ∧
    (∃ res : RunResult ℚ,
      Sweep.watch envQ swQ (some 1) (some 1) 3 none 0 = some res ∧
      1 ≤ res.records.length ∧
      (1 : ℚ) ≤ envQ.clock res.final - envQ.clock 0 ∧
      (∃ r tL, res.records.getLast? = some r ∧
        r.head? = some (EntityId.str "time", tL) ∧ (1 : ℚ) ≤ tL)) :=
  ⟨by norm_num, by norm_num, fun st => le_refl (st + 1), by norm_num,
   by norm_num,
   claim_C8 envQ swQ (some 1) 1 1 3 0 (by norm_num) (by norm_num)
     (fun st => le_refl (st + 1)) (by norm_num) (by norm_num)⟩

end Measureme
